import Mathlib

/-!
# CyberMem — a verification development

A shallow embedding of `src/cybermem.py`, a single-file note-taking
application, together with theorems about its data model and operations.

The two persisted JSON objects (the credential store `users.json` and the
topic store `cybermem.json`) are modelled as association lists with string
keys, mirroring Python `dict` semantics (first-match lookup, in-place update
of an existing key, append of a fresh key, insertion order preserved).
Persistence (`save_users` / `save_data`) is modelled by the store value an
operation returns; the on-disk image folder is modelled as the list of paths
of existing files.  Python strings are modelled as Lean `String`s, with the
string primitives the program uses (`strip`, `split`, `lower`, `startswith`,
`replace`, substring membership, `sorted`) re-implemented on the underlying
character lists so that they match Python's behaviour on the inputs the
program handles.  `hashlib.sha256(...).hexdigest()` is embedded as a full
implementation of FIPS 180-4 SHA-256 over `Nat` with explicit reduction
modulo `2 ^ 32`.
-/

namespace Cybermem

/-! ## Python string primitives -/

/-- ASCII whitespace as stripped by Python `str.strip()` with no argument
(space, tab, newline, carriage return, vertical tab, form feed). -/
def isSpace (c : Char) : Bool :=
  c = ' ' || c = '\t' || c = '\n' || c = '\r' || c = '\x0b' || c = '\x0c'

/-- Python `s.strip()` on the character list: drop whitespace from both ends. -/
def stripChars (l : List Char) : List Char :=
  ((l.dropWhile isSpace).reverse.dropWhile isSpace).reverse

/-- Python `s.strip()`. -/
def pyStrip (s : String) : String :=
  String.mk (stripChars s.data)

/-- Worker for `splitChar`: Python `str.split(sep)` with a one-character
separator, accumulating the current fragment in reverse. -/
def splitCharAux (sep : Char) : List Char → List Char → List String
  | [], acc => [String.mk acc.reverse]
  | c :: cs, acc =>
    if c = sep then String.mk acc.reverse :: splitCharAux sep cs []
    else splitCharAux sep cs (c :: acc)

/-- Python `s.split(sep)` for a one-character separator `sep`; in particular
`"".split(sep) == [""]` and a trailing separator yields a trailing `""`. -/
def splitChar (sep : Char) (s : String) : List String :=
  splitCharAux sep s.data []

/-- Python `s.lower()`; the program only ever lowercases for an ASCII
case-insensitive comparison, which `Char.toLower` implements. -/
def lowerPy (s : String) : String :=
  String.mk (s.data.map Char.toLower)

/-- Python `s.startswith(p)`. -/
def startsWithPy (p s : String) : Bool :=
  p.data.isPrefixOf s.data

/-- Python `needle in hay` substring membership on strings. -/
def containsPy (needle hay : String) : Bool :=
  decide (needle.data <:+: hay.data)

/-- Worker for `replaceChars`, structurally recursive on a fuel list that is
at least as long as the scanned list (each step consumes one fuel element and
at least one scanned element). -/
def replaceAux (pat rep : List Char) : List Char → List Char → List Char
  | _, [] => []
  | [], c :: cs => c :: cs
  | _ :: fs, c :: cs =>
    if pat ≠ [] ∧ pat.isPrefixOf (c :: cs) then
      rep ++ replaceAux pat rep fs ((c :: cs).drop pat.length)
    else
      c :: replaceAux pat rep fs cs

/-- Python `s.replace(pat, rep)` on character lists: replace the non-
overlapping occurrences of `pat`, scanning left to right.  (The program only
calls this with the non-empty pattern `"Image stored at "`; for an empty
pattern this model scans without replacing.) -/
def replaceChars (pat rep l : List Char) : List Char :=
  replaceAux pat rep l l

/-- Python `s.replace(pat, rep)`. -/
def replacePy (pat rep s : String) : String :=
  String.mk (replaceChars pat.data rep.data s.data)

/-! ## SHA-256 (FIPS 180-4), as called by `hash_password`

`hash_password(password)` in the source is
`hashlib.sha256(password.encode()).hexdigest()`: UTF-8 encode the password,
hash it with SHA-256, and render the 32 digest bytes as 64 lowercase hex
characters.  Bytes and 32-bit words are `Nat`s kept below `2 ^ 8` resp.
`2 ^ 32`. -/

/-- UTF-8 encoding of a single character (as produced by Python
`str.encode()`), most significant bits first. -/
def utf8Char (c : Char) : List Nat :=
  let n := c.toNat
  if n < 0x80 then [n]
  else if n < 0x800 then [0xC0 + n / 0x40, 0x80 + n % 0x40]
  else if n < 0x10000 then [0xE0 + n / 0x1000, 0x80 + n / 0x40 % 0x40, 0x80 + n % 0x40]
  else [0xF0 + n / 0x40000, 0x80 + n / 0x1000 % 0x40, 0x80 + n / 0x40 % 0x40, 0x80 + n % 0x40]

/-- Python `password.encode()`: the UTF-8 bytes of a string. -/
def utf8Bytes (s : String) : List Nat :=
  s.data.flatMap utf8Char

/-- Truncation to a 32-bit word. -/
def w32 (n : Nat) : Nat := n % 4294967296

/-- Right rotation of a 32-bit word (`x < 2 ^ 32`). -/
def rotr (n x : Nat) : Nat := x / 2 ^ n + x % 2 ^ n * 2 ^ (32 - n)

/-- SHA-256 Σ₀. -/
def bsig0 (x : Nat) : Nat := rotr 2 x ^^^ rotr 13 x ^^^ rotr 22 x

/-- SHA-256 Σ₁. -/
def bsig1 (x : Nat) : Nat := rotr 6 x ^^^ rotr 11 x ^^^ rotr 25 x

/-- SHA-256 σ₀. -/
def ssig0 (x : Nat) : Nat := rotr 7 x ^^^ rotr 18 x ^^^ x / 2 ^ 3

/-- SHA-256 σ₁. -/
def ssig1 (x : Nat) : Nat := rotr 17 x ^^^ rotr 19 x ^^^ x / 2 ^ 10

/-- SHA-256 `Ch(x, y, z)`; `¬x` is XOR with the 32-bit all-ones word. -/
def chF (x y z : Nat) : Nat := (x &&& y) ^^^ ((x ^^^ 4294967295) &&& z)

/-- SHA-256 `Maj(x, y, z)`. -/
def majF (x y z : Nat) : Nat := (x &&& y) ^^^ (x &&& z) ^^^ (y &&& z)

/-- The eight 32-bit words of a SHA-256 state. -/
structure Hash8 where
  a : Nat
  b : Nat
  c : Nat
  d : Nat
  e : Nat
  f : Nat
  g : Nat
  h : Nat

/-- SHA-256 initial hash value H⁽⁰⁾ (the eight words written in decimal). -/
def initH : Hash8 :=
  ⟨1779033703, 3144134277, 1013904242, 2773480762,
   1359893119, 2600822924, 528734635, 1541459225⟩

/-- The 64 SHA-256 round constants K (written in decimal). -/
def roundK : List Nat :=
  [1116352408, 1899447441, 3049323471, 3921009573, 961987163, 1508970993,
   2453635748, 2870763221, 3624381080, 310598401, 607225278, 1426881987,
   1925078388, 2162078206, 2614888103, 3248222580, 3835390401, 4022224774,
   264347078, 604807628, 770255983, 1249150122, 1555081692, 1996064986,
   2554220882, 2821834349, 2952996808, 3210313671, 3336571891, 3584528711,
   113926993, 338241895, 666307205, 773529912, 1294757372, 1396182291,
   1695183700, 1986661051, 2177026350, 2456956037, 2730485921, 2820302411,
   3259730800, 3345764771, 3516065817, 3600352804, 4094571909, 275423344,
   430227734, 506948616, 659060556, 883997877, 958139571, 1322822218,
   1537002063, 1747873779, 1955562222, 2024104815, 2227730452, 2361852424,
   2428436474, 2756734187, 3204031479, 3329325298]

/-- Big-endian 32-bit words of a byte list (four bytes per word). -/
def bytesToWords : List Nat → List Nat
  | b0 :: b1 :: b2 :: b3 :: rest =>
    (((b0 * 256 + b1) * 256 + b2) * 256 + b3) :: bytesToWords rest
  | _ => []

/-- Extend a message schedule by `n` further words
(`Wᵢ = σ₁(Wᵢ₋₂) + Wᵢ₋₇ + σ₀(Wᵢ₋₁₅) + Wᵢ₋₁₆ mod 2 ^ 32`). -/
def extendW : Nat → List Nat → List Nat
  | 0, ws => ws
  | n + 1, ws =>
    extendW n (ws ++ [w32 (ssig1 (ws.getD (ws.length - 2) 0) + ws.getD (ws.length - 7) 0 +
      ssig0 (ws.getD (ws.length - 15) 0) + ws.getD (ws.length - 16) 0)])

/-- One SHA-256 round, consuming a pair (round constant, schedule word). -/
def stepRound (st : Hash8) (kw : Nat × Nat) : Hash8 :=
  let t1 := w32 (st.h + bsig1 st.e + chF st.e st.f st.g + kw.1 + kw.2)
  let t2 := w32 (bsig0 st.a + majF st.a st.b st.c)
  ⟨w32 (t1 + t2), st.a, st.b, st.c, w32 (st.d + t1), st.e, st.f, st.g⟩

/-- SHA-256 compression of one 64-byte block into the running state. -/
def compress (st : Hash8) (block : List Nat) : Hash8 :=
  let ws := extendW 48 (bytesToWords block)
  let z := (roundK.zip ws).foldl stepRound st
  ⟨w32 (st.a + z.a), w32 (st.b + z.b), w32 (st.c + z.c), w32 (st.d + z.d),
   w32 (st.e + z.e), w32 (st.f + z.f), w32 (st.g + z.g), w32 (st.h + z.h)⟩

/-- Compress `n` consecutive 64-byte blocks into the running state. -/
def processCount : Nat → Hash8 → List Nat → Hash8
  | 0, st, _ => st
  | n + 1, st, l => processCount n (compress st (l.take 64)) (l.drop 64)

/-- Fold `compress` over the 64-byte blocks of a padded message (whose
length is a multiple of 64). -/
def processBlocks (st : Hash8) (l : List Nat) : Hash8 :=
  processCount (l.length / 64) st l

/-- The eight big-endian bytes of the 64-bit message bit length. -/
def lenBytes (n : Nat) : List Nat :=
  [n / 2 ^ 56 % 256, n / 2 ^ 48 % 256, n / 2 ^ 40 % 256, n / 2 ^ 32 % 256,
   n / 2 ^ 24 % 256, n / 2 ^ 16 % 256, n / 2 ^ 8 % 256, n % 256]

/-- SHA-256 padding: a `0x80` byte, zeros up to 56 mod 64, then the bit
length in eight big-endian bytes. -/
def padMsg (msg : List Nat) : List Nat :=
  msg ++ 0x80 :: (List.replicate ((119 - msg.length % 64) % 64) 0 ++ lenBytes (8 * msg.length))

/-- The four big-endian bytes of a 32-bit word. -/
def wordBytes (x : Nat) : List Nat :=
  [x / 2 ^ 24 % 256, x / 2 ^ 16 % 256, x / 2 ^ 8 % 256, x % 256]

/-- SHA-256 digest (32 bytes) of a byte-list message. -/
def sha256 (msg : List Nat) : List Nat :=
  let st := processBlocks initH (padMsg msg)
  wordBytes st.a ++ wordBytes st.b ++ wordBytes st.c ++ wordBytes st.d ++
    (wordBytes st.e ++ wordBytes st.f ++ wordBytes st.g ++ wordBytes st.h)

/-- Lowercase hexadecimal digit. -/
def hexDigit (n : Nat) : Char :=
  "0123456789abcdef".data.getD n '0'

/-- Two lowercase hex characters per byte (Python `hexdigest()`). -/
def hexChars : List Nat → List Char
  | [] => []
  | b :: bs => hexDigit (b / 16) :: hexDigit (b % 16) :: hexChars bs

/-- `hash_password` (src/cybermem.py:51-52):
`hashlib.sha256(password.encode()).hexdigest()`. -/
def hash_password (password : String) : String :=
  String.mk (hexChars (sha256 (utf8Bytes password)))

/-- FIPS 180-4 test vector: the digest of `"abc"`. -/
example : hash_password "abc" =
    "ba7816bf8f01cfea414140de5dae2223b00361a396177a9cb410ff61f20015ad" := by
  decide

/-- The digest of the empty message. -/
example : hash_password "" =
    "e3b0c44298fc1c149afbf4c8996fb92427ae41e4649b934ca495991b7852b855" := by
  decide

/-! ## Python dictionaries as association lists

A JSON object / Python `dict` is modelled as an association list in
insertion order.  `lookup'` is `d[k]` (and `k in d` via `isSome`),
`setKey` is `d[k] = v` (overwrite in place, append when fresh) and
`removeKey` is `del d[k]`. -/

/-- Python `d[k]` / `k in d`: value at the first matching key, if any. -/
def lookup' (k : String) : List (String × α) → Option α
  | [] => none
  | (k', v) :: rest => if k' = k then some v else lookup' k rest

/-- Python `d[k] = v`: overwrite the first matching key in place, or append
a fresh binding at the end (dicts preserve insertion order). -/
def setKey (k : String) (v : α) : List (String × α) → List (String × α)
  | [] => [(k, v)]
  | (k', w) :: rest => if k' = k then (k, v) :: rest else (k', w) :: setKey k v rest

/-- Python `del d[k]`: drop the first matching binding. -/
def removeKey (k : String) : List (String × α) → List (String × α)
  | [] => []
  | (k', v) :: rest => if k' = k then rest else (k', v) :: removeKey k rest

/-- The credential store (`users.json`): username to password hash. -/
abbrev Creds := List (String × String)

/-- The topic store (`cybermem.json`): topic name to list of step strings. -/
abbrev Store := List (String × List String)

/-! ## The login branch (src/cybermem.py:108-133) -/

/-- The Login button handler (src/cybermem.py:113-121):
`username in users and users[username] == hash_password(password)`. -/
def authenticate (users : Creds) (username password : String) : Bool :=
  match lookup' username users with
  | none => false
  | some stored => stored = hash_password password

/-- The Register button handler (src/cybermem.py:126-132): a warning and no
mutation when the username exists, otherwise insert the hash and persist.
The `Bool` is `true` on success and `false` when the warning is shown. -/
def register (users : Creds) (username password : String) : Creds × Bool :=
  if (lookup' username users).isSome then (users, false)
  else (setKey username (hash_password password) users, true)

/-! ## The image sentinel and Add Topic (src/cybermem.py:141-186) -/

/-- The check shared by the Edit and Delete branches
(src/cybermem.py:214, 233): `steps and steps[0].startswith("[Image stored at")`. -/
def firstIsImage (steps : List String) : Bool :=
  match steps with
  | [] => false
  | s :: _ => startsWithPy "[Image stored at" s

/-- The image-mode filename sanitizer (src/cybermem.py:159):
`re.sub(r'[\\/:*?"<>|]', '_', topic)` replaces each occurrence of one of the
nine filesystem-unsafe characters by an underscore. -/
def sanitize (topic : String) : String :=
  String.mk (topic.data.map (fun c =>
    if c = '\\' || c = '/' || c = ':' || c = '*' || c = '?' ||
        c = '"' || c = '<' || c = '>' || c = '|' then '_' else c))

/-- The sanitized name with its fallback (src/cybermem.py:159-161):
the literal name `"unnamed"` when sanitization yields the empty string. -/
def safeTopic (topic : String) : String :=
  if sanitize topic = "" then "unnamed" else sanitize topic

/-- The path the uploaded image is saved under (src/cybermem.py:162):
`os.path.join(IMAGE_FOLDER, f"{safe_topic}.png")` with `IMAGE_FOLDER = "images"`. -/
def imagePath (topic : String) : String :=
  "images/" ++ safeTopic topic ++ ".png"

/-- The entry saved by the Save Topic handler (src/cybermem.py:181-183):
`entry = steps if steps else []`, overridden by the single sentinel string
when an image was uploaded (`image_path` non-empty). -/
def mkEntry (steps : List String) (image_path : String) : List String :=
  if image_path ≠ "" then ["[Image stored at " ++ image_path ++ "]"]
  else if steps = [] then [] else steps

/-- Outcome message of the Save Topic handler. -/
inductive AddMsg
  | errorBlank
  | warnDup
  | saved
deriving DecidableEq

/-- The Save Topic handler (src/cybermem.py:175-186): an error when the
stripped topic name is empty, a warning when the name is already a key, and
otherwise `data[topic] = entry; save_data(data)`. -/
def addTopic (data : Store) (topic : String) (entry : List String) : Store × AddMsg :=
  if pyStrip topic = "" then (data, .errorBlank)
  else if (lookup' topic data).isSome then (data, .warnDup)
  else (setKey topic entry data, .saved)

/-! ## Edit Topic (src/cybermem.py:206-224) -/

/-- Outcome message of the Edit Topic branch. -/
inductive EditMsg
  | noTopic
  | imageWarning
  | saved
deriving DecidableEq

/-- The new step list on Save Changes (src/cybermem.py:221):
`[line.strip() for line in new_text.split("\n") if line.strip() != ""]`. -/
def editSteps (new_text : String) : List String :=
  ((splitChar '\n' new_text).map pyStrip).filter (fun l => l ≠ "")

/-- The Edit Topic branch (src/cybermem.py:213-224): a warning when the
first step starts with the sentinel prefix, otherwise replace the entry by
the stripped non-blank lines and persist.  (`noTopic` is unreachable in the
GUI: the topic is chosen from a selectbox over the store's keys.) -/
def editTopic (data : Store) (topic new_text : String) : Store × EditMsg :=
  match lookup' topic data with
  | none => (data, .noTopic)
  | some steps =>
    if firstIsImage steps then (data, .imageWarning)
    else (setKey topic (editSteps new_text) data, .saved)

/-! ## Delete Topic (src/cybermem.py:226-239) -/

/-- Path extraction from a sentinel step (src/cybermem.py:234):
`step.split("[")[1].split("]")[0].replace("Image stored at ", "")`. -/
def extractPath (step : String) : String :=
  replacePy "Image stored at " ""
    (((splitChar ']' ((splitChar '[' step).getD 1 "")).getD 0 ""))

/-- The Delete Topic branch (src/cybermem.py:232-239) acting on the store
and on the image folder `fs` (the list of paths of existing files): when the
first step starts with the sentinel prefix, remove the extracted path from
disk if it exists; then `del data[topic]; save_data(data)`.  (A missing
topic is unreachable in the GUI: the selectbox only offers existing keys.) -/
def deleteTopic (data : Store) (fs : List String) (topic : String) :
    Store × List String :=
  match lookup' topic data with
  | none => (data, fs)
  | some steps =>
    let fs' :=
      if firstIsImage steps then
        let p := extractPath (steps.getD 0 "")
        if p ∈ fs then fs.erase p else fs
      else fs
    (removeKey topic data, fs')

/-! ## List Topics and Search Steps (src/cybermem.py:241-257) -/

/-- The List Topics branch (src/cybermem.py:246): `sorted(data.keys())`,
Python's ascending lexicographic sort on strings. -/
def listTopics (data : Store) : List String :=
  List.insertionSort (fun a b => a ≤ b) (data.map Prod.fst)

/-- The per-step filter of the Search Steps branch (src/cybermem.py:255):
`query.lower() in s.lower() and not s.startswith("[Image stored at")`. -/
def stepMatches (query s : String) : Bool :=
  containsPy (lowerPy query) (lowerPy s) && !startsWithPy "[Image stored at" s

/-- The Search Steps branch (src/cybermem.py:252-257): for each topic in
store order, the matching steps; topics whose match list is empty are left
out of the result dict. -/
def searchTopics (data : Store) (query : String) : Store :=
  match data with
  | [] => []
  | (topic, steps) :: rest =>
    let ms := steps.filter (stepMatches query)
    if ms = [] then searchTopics rest query
    else (topic, ms) :: searchTopics rest query

/-! ## Spec-side notions

These two definitions follow the specification's words, not the source; they
exist to be compared with the source-derived behaviour. -/

/-- Modelled from the spec (data model, glossary, and §6): an entry encodes
an image topic exactly when it is "a single-element sequence containing the
sentinel string" — "an array of length 1 whose sole element matches pattern
`[Image stored at <path>]`".  The sole element is judged by the same
prefix criterion the program itself uses, which is the reading most
charitable to the specification. -/
def specIsImageSentinel (steps : List String) : Bool :=
  match steps with
  | [s] => startsWithPy "[Image stored at" s
  | _ => false

/-! ## Association-list lemmas -/

theorem lookup'_setKey_self (k : String) (v : α) (l : List (String × α)) :
    lookup' k (setKey k v l) = some v := by
  induction l with
  | nil => simp [lookup', setKey]
  | cons p rest ih =>
    obtain ⟨k', w⟩ := p
    by_cases hk : k' = k <;> simp [lookup', setKey, hk, ih]

theorem lookup'_setKey_other (k k' : String) (v : α) (l : List (String × α))
    (h : k' ≠ k) : lookup' k' (setKey k v l) = lookup' k' l := by
  induction l with
  | nil => simp [lookup', setKey, Ne.symm h]
  | cons p rest ih =>
    obtain ⟨k₀, w⟩ := p
    by_cases hk : k₀ = k
    · subst hk
      simp [lookup', setKey, Ne.symm h]
    · simp [lookup', setKey, hk, ih]

theorem setKey_eq_append (k : String) (v : α) (l : List (String × α))
    (h : lookup' k l = none) : setKey k v l = l ++ [(k, v)] := by
  induction l with
  | nil => simp [setKey]
  | cons p rest ih =>
    obtain ⟨k₀, w⟩ := p
    by_cases hk : k₀ = k
    · simp [lookup', hk] at h
    · simp [lookup', hk] at h
      simp [setKey, hk, ih h]

theorem mem_keys_iff_lookup' (k : String) (l : List (String × α)) :
    k ∈ l.map Prod.fst ↔ (lookup' k l).isSome := by
  induction l with
  | nil => simp [lookup']
  | cons p rest ih =>
    obtain ⟨k₀, w⟩ := p
    by_cases hk : k₀ = k
    · subst hk
      simp [lookup']
    · simp [lookup', hk, Ne.symm hk, ih]

theorem lookup'_eq_none_of_not_mem (k : String) (l : List (String × α))
    (h : k ∉ l.map Prod.fst) : lookup' k l = none := by
  rcases ho : lookup' k l with _ | v
  · rfl
  · exact absurd ((mem_keys_iff_lookup' k l).2 (by simp [ho])) h

theorem lookup'_removeKey_self (k : String) (l : List (String × α))
    (hnd : (l.map Prod.fst).Nodup) : lookup' k (removeKey k l) = none := by
  induction l with
  | nil => simp [lookup', removeKey]
  | cons p rest ih =>
    obtain ⟨k₀, w⟩ := p
    simp only [List.map_cons, List.nodup_cons] at hnd
    by_cases hk : k₀ = k
    · subst hk
      have hr : removeKey k₀ ((k₀, w) :: rest) = rest := by simp [removeKey]
      rw [hr]
      exact lookup'_eq_none_of_not_mem k₀ rest hnd.1
    · simp [removeKey, lookup', hk, ih hnd.2]

theorem lookup'_removeKey_other (k k' : String) (l : List (String × α))
    (h : k' ≠ k) : lookup' k' (removeKey k l) = lookup' k' l := by
  induction l with
  | nil => simp [removeKey]
  | cons p rest ih =>
    obtain ⟨k₀, w⟩ := p
    by_cases hk : k₀ = k
    · subst hk
      simp [removeKey, lookup', Ne.symm h, ih]
    · simp [removeKey, lookup', hk, ih]

/-! ## Search lemmas -/

theorem lookup'_searchTopics_of_none (data : Store) (q t : String)
    (h : lookup' t data = none) : lookup' t (searchTopics data q) = none := by
  induction data with
  | nil => simp [searchTopics, lookup']
  | cons p rest ih =>
    obtain ⟨topic, steps⟩ := p
    by_cases hk : topic = t
    · simp [lookup', hk] at h
    · simp only [lookup', if_neg hk] at h
      simp only [searchTopics]
      by_cases hm : steps.filter (stepMatches q) = []
      · simpa [hm] using ih h
      · simpa [hm, lookup', hk] using ih h

theorem lookup'_searchTopics (data : Store) (q t : String) (steps : List String)
    (hnd : (data.map Prod.fst).Nodup) (h : lookup' t data = some steps) :
    lookup' t (searchTopics data q) =
      if steps.filter (stepMatches q) = [] then none
      else some (steps.filter (stepMatches q)) := by
  induction data with
  | nil => simp [lookup'] at h
  | cons p rest ih =>
    obtain ⟨topic, steps₀⟩ := p
    simp only [List.map_cons, List.nodup_cons] at hnd
    by_cases hk : topic = t
    · subst hk
      have h' : steps₀ = steps := by simpa [lookup'] using h
      rw [← h']
      have hnone : lookup' topic rest = none :=
        lookup'_eq_none_of_not_mem topic rest hnd.1
      by_cases hm : steps₀.filter (stepMatches q) = []
      · simpa [searchTopics, hm] using lookup'_searchTopics_of_none rest q topic hnone
      · simp [searchTopics, hm, lookup']
    · simp only [lookup', if_neg hk] at h
      simp only [searchTopics]
      by_cases hm : steps₀.filter (stepMatches q) = []
      · simpa [hm] using ih hnd.2 h
      · simpa [hm, lookup', hk] using ih hnd.2 h

/-! ## List Topics lemmas -/

theorem listTopics_sorted (data : Store) :
    (listTopics data).Sorted (fun a b : String => a ≤ b) :=
  List.sorted_insertionSort _ _

theorem listTopics_perm (data : Store) :
    List.Perm (listTopics data) (data.map Prod.fst) :=
  List.perm_insertionSort _ _

theorem mem_listTopics (t : String) (data : Store) :
    t ∈ listTopics data ↔ t ∈ data.map Prod.fst :=
  (listTopics_perm data).mem_iff

/-! ## Digest shape and the pigeonhole collision -/

theorem hexChars_length (l : List Nat) : (hexChars l).length = 2 * l.length := by
  induction l with
  | nil => simp [hexChars]
  | cons b bs ih =>
    simp [hexChars, ih]
    omega

theorem sha256_length (msg : List Nat) : (sha256 msg).length = 32 := by
  simp [sha256, wordBytes]

theorem hash_password_length (p : String) : (hash_password p).length = 64 := by
  show (hexChars (sha256 (utf8Bytes p))).length = 64
  rw [hexChars_length, sha256_length]

theorem char_toNat_lt (c : Char) : c.toNat < 1114112 := by
  have hv := c.valid
  rcases hv with h | ⟨_, h2⟩
  · exact Nat.lt_trans h (by decide)
  · exact h2

/-- `Char` is finite: it injects into `Fin 1114112` by its scalar value. -/
instance : Finite Char := by
  apply Finite.of_injective (fun c : Char => (⟨c.toNat, char_toNat_lt c⟩ : Fin 1114112))
  intro c d h
  simp only [Fin.mk.injEq] at h
  exact Char.eq_of_val_eq (UInt32.eq_of_toBitVec_eq (BitVec.eq_of_toNat_eq h))

/-- Strings of a fixed length form a finite type. -/
theorem finite_string_of_length (n : Nat) : Finite {s : String // s.length = n} := by
  apply Finite.of_injective
    (fun s : {s : String // s.length = n} => (fun i : Fin n => s.1.data.getD i.1 'a'))
  intro a b h
  obtain ⟨s, hs⟩ := a
  obtain ⟨sd⟩ := s
  obtain ⟨t, ht⟩ := b
  obtain ⟨td⟩ := t
  have hsl : sd.length = n := hs
  have htl : td.length = n := ht
  apply Subtype.ext
  apply String.ext
  show sd = td
  apply List.ext_getElem (by rw [hsl, htl])
  intro i h1 h2
  have hkey := congrFun h ⟨i, by omega⟩
  simp only at hkey
  rwa [List.getD_eq_getElem?_getD, List.getD_eq_getElem?_getD,
    List.getElem?_eq_getElem h1, List.getElem?_eq_getElem h2,
    Option.getD_some, Option.getD_some] at hkey

/-- SHA-256 hex digests collide: `hash_password` is not injective, because
infinitely many strings map into the finite set of length-64 strings. -/
theorem hash_password_collision :
    ∃ p q : String, p ≠ q ∧ hash_password p = hash_password q := by
  haveI : Finite {s : String // s.length = 64} := finite_string_of_length 64
  obtain ⟨p, q, hne, heq⟩ := Finite.exists_ne_map_eq_of_infinite
    (fun s : String => (⟨hash_password s, hash_password_length s⟩ :
      {t : String // t.length = 64}))
  exact ⟨p, q, hne, congrArg Subtype.val heq⟩

/-! ## Claims -/

/-- C1, counterexample.  The claim says that immediately after
`register(username, password)` on a fresh username, `authenticate` fails for
*any* other password.  That universal statement is false: SHA-256 maps the
infinitely many strings into the finitely many length-64 hex digests, so two
distinct passwords share a digest, and after registering one of them
`authenticate` accepts the other. -/
theorem C1_counterexample :
    ¬ ∀ (users : Creds) (u p p' : String), lookup' u users = none → p' ≠ p →
        authenticate (register users u p).1 u p' = false := by
  intro hclaim
  obtain ⟨p, q, hne, heq⟩ := hash_password_collision
  have hfalse := hclaim [] "u" p q rfl (Ne.symm hne)
  have htrue : authenticate (register [] "u" p).1 "u" q = true := by
    simp [register, lookup', setKey, authenticate, heq]
  rw [htrue] at hfalse
  exact Bool.noConfusion hfalse

/-- C1, amended: `authenticate(username, password)` succeeds iff `username`
is a key of the credential mapping and the stored value equals the SHA-256
hex digest of `password`; immediately after `register(username, password)`
on a fresh username, `authenticate` succeeds with that password and fails
for any password whose SHA-256 hex digest differs from the registered
one. -/
theorem C1_authenticate_register (users : Creds) (u p p' : String)
    (hfresh : lookup' u users = none) :
    (∀ us : Creds, authenticate us u p = true ↔ lookup' u us = some (hash_password p))
    ∧ authenticate (register users u p).1 u p = true
    ∧ (hash_password p' ≠ hash_password p →
        authenticate (register users u p).1 u p' = false) := by
  refine ⟨fun us => ?_, ?_, fun hdiff => ?_⟩
  · rcases ho : lookup' u us with _ | stored
    · simp [authenticate, ho]
    · simp [authenticate, ho]
  · simp [register, hfresh, authenticate, lookup'_setKey_self]
  · simp [register, hfresh, authenticate, lookup'_setKey_self, Ne.symm hdiff]

/-- C1, witness for the amended theorem. -/
theorem C1_authenticate_register_witness :
    authenticate (register [] "alice" "pw").1 "alice" "pw" = true
    ∧ authenticate (register [] "alice" "pw").1 "alice" "pw2" = false :=
  ⟨(C1_authenticate_register [] "alice" "pw" "pw2" (by decide)).2.1,
   (C1_authenticate_register [] "alice" "pw" "pw2" (by decide)).2.2 (by decide)⟩

/-- C2, counterexample.  The claim says edit is rejected exactly when the
existing entry *is an image sentinel* (per the spec's data model: a
single-element sequence holding the sentinel string).  The entry below is
not an image sentinel — it has two steps — yet the code rejects the edit,
because it only inspects `steps[0].startswith("[Image stored at")`. -/
theorem C2_counterexample :
    specIsImageSentinel ["[Image stored at images/p.png]", "extra step"] = false
    ∧ editTopic [("T", ["[Image stored at images/p.png]", "extra step"])] "T" "new step"
        = ([("T", ["[Image stored at images/p.png]", "extra step"])], EditMsg.imageWarning) :=
  ⟨by decide, by decide⟩

/-- C2, amended: for a topic present in the store, edit is rejected when the
entry's step sequence is non-empty and its first step starts with
`"[Image stored at"`; otherwise it replaces the entry's step sequence with
exactly the stripped, non-blank lines of `new_text` (in order) and persists
the store, leaving every other topic unchanged. -/
theorem C2_edit (data : Store) (topic new_text : String) (steps : List String)
    (h : lookup' topic data = some steps) :
    (firstIsImage steps = true →
      editTopic data topic new_text = (data, EditMsg.imageWarning))
    ∧ (firstIsImage steps = false →
        editTopic data topic new_text = (setKey topic (editSteps new_text) data, EditMsg.saved)
        ∧ lookup' topic (editTopic data topic new_text).1 =
            some (((splitChar '\n' new_text).map pyStrip).filter (fun l => l ≠ ""))
        ∧ ∀ k, k ≠ topic →
            lookup' k (editTopic data topic new_text).1 = lookup' k data) := by
  constructor
  · intro himg
    simp [editTopic, h, himg]
  · intro himg
    refine ⟨by simp [editTopic, h, himg], ?_, fun k hk => ?_⟩
    · simp [editTopic, h, himg, lookup'_setKey_self, editSteps]
    · simp [editTopic, h, himg, lookup'_setKey_other _ _ _ _ hk]

/-- C2, witness for the amended theorem. -/
theorem C2_edit_witness :
    editTopic [("T", ["a"])] "T" " x \n\n y" = ([("T", ["x", "y"])], EditMsg.saved) :=
  (((C2_edit [("T", ["a"])] "T" " x \n\n y" ["a"] (by decide)).2 (by decide)).1).trans
    (by decide)

/-- C3: a step matches iff the lowercased query is a substring of the
lowercased step and the step does not start with the sentinel prefix; for a
store with distinct keys, the search result maps a present topic to its
(non-empty) list of matching steps, omits a present topic whose match list
is empty, and contains no topic absent from the store. -/
theorem C3_search (data : Store) (q t : String) (steps : List String)
    (hnd : (data.map Prod.fst).Nodup) :
    (∀ s, stepMatches q s = true ↔
        ((lowerPy q).data <:+: (lowerPy s).data
          ∧ startsWithPy "[Image stored at" s = false))
    ∧ (lookup' t data = some steps →
        lookup' t (searchTopics data q) =
          if steps.filter (stepMatches q) = [] then none
          else some (steps.filter (stepMatches q)))
    ∧ (lookup' t data = none → lookup' t (searchTopics data q) = none) := by
  refine ⟨fun s => ?_, fun h => ?_, fun h => ?_⟩
  · simp [stepMatches, containsPy]
  · exact lookup'_searchTopics data q t steps hnd h
  · exact lookup'_searchTopics_of_none data q t h

/-- C3, witness: the specification's own example, `search("login")` over
`{"T1": ["Open login page", "Click submit"], "T2": ["Unrelated"]}`. -/
theorem C3_search_witness :
    lookup' "T1" (searchTopics
        [("T1", ["Open login page", "Click submit"]), ("T2", ["Unrelated"])] "login")
      = some ["Open login page"]
    ∧ lookup' "T2" (searchTopics
        [("T1", ["Open login page", "Click submit"]), ("T2", ["Unrelated"])] "login")
      = none
    ∧ searchTopics [("T1", ["Open login page", "Click submit"]), ("T2", ["Unrelated"])]
        "login" = [("T1", ["Open login page"])] :=
  ⟨((C3_search [("T1", ["Open login page", "Click submit"]), ("T2", ["Unrelated"])]
      "login" "T1" ["Open login page", "Click submit"] (by decide)).2.1
        (by decide)).trans (by decide),
   ((C3_search [("T1", ["Open login page", "Click submit"]), ("T2", ["Unrelated"])]
      "login" "T2" ["Unrelated"] (by decide)).2.1 (by decide)).trans (by decide),
   by decide⟩

/-- C4, counterexample.  The claim says a file is removed exactly when the
entry *is an image sentinel* and that deleting a non-image topic removes no
file.  The entry below is not an image sentinel — it has two steps — yet
deleting it removes `images/p.png` from disk, because the code only
inspects `data[topic][0].startswith("[Image stored at")`. -/
theorem C4_counterexample :
    specIsImageSentinel ["[Image stored at images/p.png]", "note"] = false
    ∧ deleteTopic [("T", ["[Image stored at images/p.png]", "note"])]
        ["images/p.png"] "T" = ([], []) :=
  ⟨by decide, by decide⟩

/-- C4, amended: for a topic present in a store with distinct keys,
delete removes the mapping entry (other entries unchanged) and persists;
it removes the extracted image path from disk exactly when the entry's
first step starts with `"[Image stored at"` (skipping removal when the file
is already absent), and removes no file otherwise. -/
theorem C4_delete (data : Store) (fs : List String) (topic : String)
    (steps : List String) (hnd : (data.map Prod.fst).Nodup)
    (h : lookup' topic data = some steps) :
    lookup' topic (deleteTopic data fs topic).1 = none
    ∧ (∀ k, k ≠ topic →
        lookup' k (deleteTopic data fs topic).1 = lookup' k data)
    ∧ (firstIsImage steps = false → (deleteTopic data fs topic).2 = fs)
    ∧ (firstIsImage steps = true →
        (deleteTopic data fs topic).2 =
          if extractPath (steps.getD 0 "") ∈ fs
          then fs.erase (extractPath (steps.getD 0 "")) else fs) := by
  refine ⟨?_, fun k hk => ?_, fun himg => ?_, fun himg => ?_⟩
  · simp [deleteTopic, h, lookup'_removeKey_self _ _ hnd]
  · simp [deleteTopic, h, lookup'_removeKey_other _ _ _ hk]
  · simp [deleteTopic, h, himg]
  · simp [deleteTopic, h, himg]

/-- C4, witness for the amended theorem. -/
theorem C4_delete_witness :
    lookup' "I" (deleteTopic [("I", ["[Image stored at images/i.png]"]), ("T", ["x"])]
        ["images/i.png"] "I").1 = none
    ∧ (deleteTopic [("I", ["[Image stored at images/i.png]"]), ("T", ["x"])]
        ["images/i.png"] "I").2 = []
    ∧ (deleteTopic [("I", ["[Image stored at images/i.png]"]), ("T", ["x"])]
        ["images/i.png"] "T").2 = ["images/i.png"] :=
  ⟨(C4_delete [("I", ["[Image stored at images/i.png]"]), ("T", ["x"])]
      ["images/i.png"] "I" ["[Image stored at images/i.png]"]
      (by decide) (by decide)).1,
   ((C4_delete [("I", ["[Image stored at images/i.png]"]), ("T", ["x"])]
      ["images/i.png"] "I" ["[Image stored at images/i.png]"]
      (by decide) (by decide)).2.2.2 (by decide)).trans (by decide),
   (C4_delete [("I", ["[Image stored at images/i.png]"]), ("T", ["x"])]
      ["images/i.png"] "T" ["x"] (by decide) (by decide)).2.2.1 (by decide)⟩

/-- C5: `add(name, entry)` fails with a user-visible error and an unchanged
store when the stripped name is empty, fails with a warning and an unchanged
store when the name is already a key, and otherwise appends the binding
`(name, entry)` and persists the store. -/
theorem C5_add (data : Store) (topic : String) (entry : List String) :
    (pyStrip topic = "" → addTopic data topic entry = (data, AddMsg.errorBlank))
    ∧ (pyStrip topic ≠ "" → (lookup' topic data).isSome →
        addTopic data topic entry = (data, AddMsg.warnDup))
    ∧ (pyStrip topic ≠ "" → lookup' topic data = none →
        addTopic data topic entry = (data ++ [(topic, entry)], AddMsg.saved)
        ∧ lookup' topic (addTopic data topic entry).1 = some entry) := by
  refine ⟨fun hb => ?_, fun hb hdup => ?_, fun hb hfresh => ⟨?_, ?_⟩⟩
  · simp [addTopic, hb]
  · simp [addTopic, hb, hdup]
  · simp [addTopic, hb, hfresh, setKey_eq_append _ _ _ hfresh]
  · simp [addTopic, hb, hfresh, lookup'_setKey_self]

/-- C5, witness. -/
theorem C5_add_witness :
    addTopic [("A", ["s"])] " " ["x"] = ([("A", ["s"])], AddMsg.errorBlank)
    ∧ addTopic [("A", ["s"])] "A" ["x"] = ([("A", ["s"])], AddMsg.warnDup)
    ∧ addTopic [("A", ["s"])] "B" ["x"] = ([("A", ["s"]), ("B", ["x"])], AddMsg.saved) :=
  ⟨(C5_add [("A", ["s"])] " " ["x"]).1 (by decide),
   (C5_add [("A", ["s"])] "A" ["x"]).2.1 (by decide) (by decide),
   ((C5_add [("A", ["s"])] "B" ["x"]).2.2 (by decide) (by decide)).1⟩

/-- C6: `register(username, password)` with an existing username reports the
warning outcome and leaves the credential mapping unchanged (the handler is
total — no unhandled failure); with a fresh username it appends the binding
`(username, sha256(password))` and persists the full mapping. -/
theorem C6_register (users : Creds) (u p : String) :
    ((lookup' u users).isSome → register users u p = (users, false))
    ∧ (lookup' u users = none →
        register users u p = (users ++ [(u, hash_password p)], true)
        ∧ lookup' u (register users u p).1 = some (hash_password p)) := by
  refine ⟨fun hdup => ?_, fun hfresh => ⟨?_, ?_⟩⟩
  · simp [register, hdup]
  · simp [register, hfresh, setKey_eq_append _ _ _ hfresh]
  · simp [register, hfresh, lookup'_setKey_self]

/-- C6, witness. -/
theorem C6_register_witness :
    register [("bob", hash_password "a")] "bob" "b" = ([("bob", hash_password "a")], false)
    ∧ register [("bob", hash_password "a")] "eve" "b"
        = ([("bob", hash_password "a"), ("eve", hash_password "b")], true) :=
  ⟨(C6_register [("bob", hash_password "a")] "bob" "b").1 (by decide),
   ((C6_register [("bob", hash_password "a")] "eve" "b").2 (by decide)).1⟩

/-- C7: `list()` is sorted in ascending lexicographic string order and is a
permutation of (exactly) the store's topic names; after a successful
`add(name, entry)` the listing contains `name`, and after `delete(name)` on
a present topic it does not. -/
theorem C7_list (data : Store) (fs : List String) (name : String)
    (entry : List String) (hnd : (data.map Prod.fst).Nodup) :
    (listTopics data).Sorted (fun a b : String => a ≤ b)
    ∧ List.Perm (listTopics data) (data.map Prod.fst)
    ∧ ((addTopic data name entry).2 = AddMsg.saved →
        name ∈ listTopics (addTopic data name entry).1)
    ∧ ((lookup' name data).isSome →
        name ∉ listTopics (deleteTopic data fs name).1) := by
  refine ⟨listTopics_sorted data, listTopics_perm data, fun hsaved => ?_, fun hmem => ?_⟩
  · by_cases hb : pyStrip name = ""
    · simp [addTopic, hb] at hsaved
    · by_cases hdup : (lookup' name data).isSome
      · simp [addTopic, hb, hdup] at hsaved
      · have h1 : (addTopic data name entry).1 = setKey name entry data := by
          simp [addTopic, hb, hdup]
        rw [h1, mem_listTopics, mem_keys_iff_lookup', lookup'_setKey_self]
        rfl
  · rcases Option.isSome_iff_exists.1 hmem with ⟨steps, hsteps⟩
    have h1 : (deleteTopic data fs name).1 = removeKey name data := by
      simp [deleteTopic, hsteps]
    rw [h1, mem_listTopics, mem_keys_iff_lookup', lookup'_removeKey_self _ _ hnd]
    simp

/-- C7, witness: the specification's `"A"` example. -/
theorem C7_list_witness :
    "A" ∈ listTopics (addTopic [("B", ["x"])] "A" ["s"]).1
    ∧ "A" ∉ listTopics (deleteTopic [("A", ["s"]), ("B", ["x"])] [] "A").1 :=
  ⟨(C7_list [("B", ["x"])] [] "A" ["s"] (by decide)).2.2.1 (by decide),
   (C7_list [("A", ["s"]), ("B", ["x"])] [] "A" ["s"] (by decide)).2.2.2 (by decide)⟩

/-- A pointwise reformulation of the sanitizer's character substitution. -/
theorem sanitizeChar_eq (c : Char) :
    (if c = '\\' || c = '/' || c = ':' || c = '*' || c = '?' ||
        c = '"' || c = '<' || c = '>' || c = '|' then '_' else c)
    = (if c ∈ ['\\', '/', ':', '*', '?', '"', '<', '>', '|'] then '_' else c) := by
  split_ifs with h1 h2 <;> first | rfl | (exfalso; simp_all)

/-- C8: in image mode the stored filename replaces every occurrence of the
nine characters `\\ / : * ? " < > |` in the topic name by an underscore,
falls back to the literal name `"unnamed"` exactly when the sanitized
result is empty (which happens iff the topic name is empty, as the
substitution is per character), saves under
`images/<sanitized>.png`, and the saved entry is the single sentinel step
naming that path. -/
theorem C8_image (topic : String) (steps : List String) :
    (sanitize topic).data = topic.data.map (fun c =>
        if c ∈ ['\\', '/', ':', '*', '?', '"', '<', '>', '|'] then '_' else c)
    ∧ (sanitize topic = "" ↔ topic = "")
    ∧ (sanitize topic = "" → safeTopic topic = "unnamed")
    ∧ (sanitize topic ≠ "" → safeTopic topic = sanitize topic)
    ∧ imagePath topic = "images/" ++ safeTopic topic ++ ".png"
    ∧ mkEntry steps (imagePath topic) =
        ["[Image stored at " ++ imagePath topic ++ "]"] := by
  refine ⟨?_, ?_, fun he => ?_, fun hne => ?_, rfl, ?_⟩
  · exact List.map_congr_left (fun c _ => sanitizeChar_eq c)
  · rw [String.ext_iff, String.ext_iff]
    show topic.data.map _ = ([] : List Char) ↔ topic.data = []
    simp
  · simp [safeTopic, he]
  · simp [safeTopic, hne]
  · have hne : imagePath topic ≠ "" := by
      intro he
      have : ("images/" ++ safeTopic topic ++ ".png").data = ("" : String).data :=
        congrArg String.data he
      simp [String.data_append] at this
    simp [mkEntry, hne]

/-- C8, witness. -/
theorem C8_image_witness :
    mkEntry ["ignored"] (imagePath "a/b") = ["[Image stored at images/a_b.png]"]
    ∧ safeTopic "" = "unnamed" :=
  ⟨((C8_image "a/b" ["ignored"]).2.2.2.2.2).trans (by decide),
   (C8_image "" []).2.2.1 (by decide)⟩

/-- C9: for a topic present in the store, the edit branch rejects exactly
when the step sequence is non-empty and its *first* element starts with
`"[Image stored at"`; consequently a topic with an empty step sequence is
editable, and so is a topic whose first step lacks the prefix even when a
sentinel string occurs later in the sequence. -/
theorem C9_edit_first_only (data : Store) (topic new_text : String)
    (steps : List String) (h : lookup' topic data = some steps) :
    ((editTopic data topic new_text).2 = EditMsg.imageWarning ↔
      ∃ s rest, steps = s :: rest ∧ startsWithPy "[Image stored at" s = true)
    ∧ (steps = [] → (editTopic data topic new_text).2 = EditMsg.saved)
    ∧ (∀ s rest, steps = s :: rest → startsWithPy "[Image stored at" s = false →
        (editTopic data topic new_text).2 = EditMsg.saved) := by
  refine ⟨?_, fun hnil => ?_, fun s rest hcons hns => ?_⟩
  · constructor
    · intro hwarn
      rcases hsteps : steps with _ | ⟨s, rest⟩
      · rw [hsteps] at h
        simp [editTopic, h, firstIsImage] at hwarn
      · rw [hsteps] at h
        refine ⟨s, rest, rfl, ?_⟩
        by_cases hp : startsWithPy "[Image stored at" s = true
        · exact hp
        · simp [editTopic, h, firstIsImage, hp] at hwarn
    · rintro ⟨s, rest, hsteps, hp⟩
      rw [hsteps] at h
      simp [editTopic, h, firstIsImage, hp]
  · rw [hnil] at h
    simp [editTopic, h, firstIsImage]
  · rw [hcons] at h
    simp [editTopic, h, firstIsImage, hns]

/-- C9, witness. -/
theorem C9_edit_first_only_witness :
    (editTopic [("E", [])] "E" "y").2 = EditMsg.saved
    ∧ (editTopic [("T", ["x", "[Image stored at p]"])] "T" "y").2 = EditMsg.saved :=
  ⟨(C9_edit_first_only [("E", [])] "E" "y" [] (by decide)).2.1 rfl,
   (C9_edit_first_only [("T", ["x", "[Image stored at p]"])] "T" "y"
      ["x", "[Image stored at p]"] (by decide)).2.2 "x" ["[Image stored at p]"]
      rfl (by decide)⟩

/-- C10: add stores the topic name untrimmed — when the stripped name is
non-empty and the (original) name is not yet a key, the entry is appended
under the original untrimmed name, and every other key (in particular a
name differing only in surrounding whitespace) is looked up unchanged. -/
theorem C10_add_untrimmed (data : Store) (name : String) (entry : List String)
    (hblank : pyStrip name ≠ "") (hfresh : lookup' name data = none) :
    addTopic data name entry = (data ++ [(name, entry)], AddMsg.saved)
    ∧ lookup' name (addTopic data name entry).1 = some entry
    ∧ (∀ other, other ≠ name →
        lookup' other (addTopic data name entry).1 = lookup' other data) := by
  refine ⟨?_, ?_, fun other hne => ?_⟩
  · simp [addTopic, hblank, hfresh, setKey_eq_append _ _ _ hfresh]
  · simp [addTopic, hblank, hfresh, lookup'_setKey_self]
  · simp [addTopic, hblank, hfresh, lookup'_setKey_other _ _ _ _ hne]

/-- C10, witness: `" X "` passes the blank check, is stored untrimmed, and
coexists with the distinct topic `"X"`. -/
theorem C10_add_untrimmed_witness :
    addTopic [("X", ["old"])] " X " ["new"]
      = ([("X", ["old"]), (" X ", ["new"])], AddMsg.saved)
    ∧ lookup' "X" (addTopic [("X", ["old"])] " X " ["new"]).1 = some ["old"] :=
  ⟨(C10_add_untrimmed [("X", ["old"])] " X " ["new"] (by decide) (by decide)).1,
   ((C10_add_untrimmed [("X", ["old"])] " X " ["new"] (by decide) (by decide)).2.2
      "X" (by decide)).trans (by decide)⟩

end Cybermem
